import Mathlib

/-! QuoteGenerator: topic resolution, sampling, loading and quote cards

A shallow embedding of `src/components/QuoteGenerator.js`.

* A JavaScript string is the list of its UTF-16 code units.
* The quote database is the list of the object's own properties, in the order
  `Object.keys` reports them; a property read also consults `Object.prototype`,
  as `quotesDatabase[name]` does.
* The React state of the component is a record; `generateQuotes` and
  `loadQuotes` are transitions on it. The timer callback of `generateQuotes`
  works on the `topic` and `quotesDatabase` captured when the request was made.
* `Math.random` is a stream of comparator answers consumed by the sort.
* `String.prototype.toLowerCase` belongs to the engine, not to the component:
  the handler takes it as the parameter `lower`, and what is proved of the
  handler holds for every such map.
-/

namespace QuoteGenerator

/-! ## Strings -/

/-- A JavaScript string: its UTF-16 code units. -/
abbrev JSString := List Nat

/-- UTF-16 encoding of one code point. -/
def encodeChar (c : Char) : List Nat :=
  if c.toNat < 65536 then [c.toNat]
  else [55296 + (c.toNat - 65536) / 1024, 56320 + (c.toNat - 65536) % 1024]

/-- The JavaScript string written by a literal. -/
def js (s : String) : JSString := s.toList.flatMap encodeChar

/-- ECMAScript `WhiteSpace` and `LineTerminator` code units, the ones
`String.prototype.trim` strips. -/
def isWhiteSpace (c : Nat) : Bool :=
  c = 9 || c = 10 || c = 11 || c = 12 || c = 13 || c = 32 || c = 160 || c = 5760 ||
  (8192 ≤ c && c ≤ 8202) || c = 8232 || c = 8233 || c = 8239 || c = 8287 ||
  c = 12288 || c = 65279

/-- `String.prototype.trimStart`. -/
def trimStart (s : JSString) : JSString := s.dropWhile isWhiteSpace

/-- `String.prototype.trimEnd`. -/
def trimEnd (s : JSString) : JSString := (s.reverse.dropWhile isWhiteSpace).reverse

/-- `String.prototype.trim`. -/
def trim (s : JSString) : JSString := trimEnd (trimStart s)

/-- Lower-case mapping of one Basic Latin code unit: `A`-`Z` go to `a`-`z`. -/
def lowerUnit (c : Nat) : Nat := if 65 ≤ c ∧ c ≤ 90 then c + 32 else c

/-- What `String.prototype.toLowerCase` does on a string of Basic Latin code
units: `A`-`Z` go to `a`-`z`. It serves as the `lower` of the example
sessions, whose inputs are such strings. -/
def asciiLowerCase (s : JSString) : JSString := s.map lowerUnit

/-- `String.prototype.startsWith`. -/
def startsWith : JSString → JSString → Bool
  | _, [] => true
  | [], _ :: _ => false
  | c :: cs, d :: ds => c = d && startsWith cs ds

/-- `String.prototype.includes`: `includes s sub` is `s.includes(sub)`. -/
def includes : JSString → JSString → Bool
  | [], sub => startsWith [] sub
  | c :: cs, sub => startsWith (c :: cs) sub || includes cs sub

/-- `String.prototype.endsWith`. -/
def endsWith (s suffix : JSString) : Bool := startsWith s.reverse suffix.reverse

/-- The scan of `String.prototype.split` for a non-empty separator: `skip`
counts the code units of a matched separator still to be passed over, `cur`
holds the current piece, last unit first. -/
def splitGo (sep : JSString) : JSString → Nat → JSString → List JSString
  | [], _, cur => [cur.reverse]
  | _ :: cs, skip + 1, cur => splitGo sep cs skip cur
  | c :: cs, 0, cur =>
      if startsWith (c :: cs) sep then cur.reverse :: splitGo sep cs (sep.length - 1) []
      else splitGo sep cs 0 (c :: cur)

/-- `String.prototype.split` with a string separator. -/
def split (s sep : JSString) : List JSString :=
  match sep with
  | [] => s.map fun c => [c]
  | _ :: _ => splitGo sep s 0 []

/-! ## The quote database as a JavaScript object -/

/-- The own properties of `quotesDatabase`, in `Object.keys` order: topic key
and the quotes stored under it. -/
abbrev QuoteDatabase := List (JSString × List JSString)

/-- `Object.keys(quotesDatabase)`. -/
def keys (db : QuoteDatabase) : List JSString := db.map Prod.fst

/-- An own property of the database. -/
def ownProperty : QuoteDatabase → JSString → Option (List JSString)
  | [], _ => none
  | (k, v) :: rest, name => if k = name then some v else ownProperty rest name

/-- What a property read on the database can yield: `undefined`, an array of
quotes, or an object inherited from `Object.prototype`, of which only its
`length` property (if it has one) matters here; such an object is not iterable. -/
inductive Value where
  | undefined
  | array (items : List JSString)
  | object (length : Option Nat)
deriving DecidableEq, Repr

/-- The string-keyed properties of `Object.prototype`, each with the `length`
of the function it holds; `__proto__` yields `Object.prototype` itself, which
has no `length`. -/
def objectPrototype : List (JSString × Option Nat) :=
  [(js "constructor", some 1),
   (js "__defineGetter__", some 2),
   (js "__defineSetter__", some 2),
   (js "hasOwnProperty", some 1),
   (js "__lookupGetter__", some 1),
   (js "__lookupSetter__", some 1),
   (js "isPrototypeOf", some 1),
   (js "propertyIsEnumerable", some 1),
   (js "toString", some 0),
   (js "valueOf", some 0),
   (js "__proto__", none),
   (js "toLocaleString", some 0)]

/-- Look a name up in a property table. -/
def tableLookup : List (JSString × Option Nat) → JSString → Option (Option Nat)
  | [], _ => none
  | (k, v) :: rest, name => if k = name then some v else tableLookup rest name

/-- The property read `quotesDatabase[name]`: an own property first, then the
prototype chain. -/
def getProperty (db : QuoteDatabase) (name : JSString) : Value :=
  match ownProperty db name with
  | some qs => .array qs
  | none =>
    match tableLookup objectPrototype name with
    | some len => .object len
    | none => .undefined

/-- JavaScript truthiness of a property value: every object is truthy. -/
def truthy : Value → Bool
  | .undefined => false
  | .array _ => true
  | .object _ => true

/-! ## Session state -/

/-- The component's React state. -/
structure State where
  topic : JSString
  quotes : List JSString
  loading : Bool
  quotesDatabase : QuoteDatabase
  loadingDatabase : Bool
  error : Option JSString
deriving DecidableEq, Repr

/-- The state of `useState` at mount. -/
def initialState : State :=
  { topic := [], quotes := [], loading := false, quotesDatabase := [],
    loadingDatabase := true, error := none }

/-- How a call of `generateQuotes` ends. -/
inductive Outcome where
  /-- `alert('Please enter a topic!')` -/
  | emptyInput
  /-- `alert('Quotes are still loading. Please wait a moment.')` -/
  | databaseNotReady
  /-- `alert('No quotes found for this topic. Try another topic!')` -/
  | noMatch
  /-- `setQuotes(shuffled.slice(0, 3))` was reached. -/
  | stored
  /-- The timer callback threw a `TypeError`. -/
  | typeError
deriving DecidableEq, Repr

/-! ## Shuffle -/

/-- One insertion of `Array.prototype.sort` under the comparator
`() => 0.5 - Math.random()`: `rnd n` tells whether the `n`-th comparator call
returned a positive number. Returns the list and the number of calls made. -/
def insertRandom (rnd : Nat → Bool) (x : JSString) : List JSString → Nat → List JSString × Nat
  | [], n => ([x], n)
  | y :: ys, n =>
      if rnd n then
        let r := insertRandom rnd x ys (n + 1)
        (y :: r.1, r.2)
      else (x :: y :: ys, n + 1)

/-- `[...l].sort(() => 0.5 - Math.random())`: the comparison order is left to
the engine; the model is an insertion sort whose every comparison is answered
by the random source. -/
def sortRandom (rnd : Nat → Bool) : List JSString → Nat → List JSString × Nat
  | [], n => ([], n)
  | x :: xs, n =>
      let r := sortRandom rnd xs n
      insertRandom rnd x r.1 r.2

/-- The copy `shuffled` of the candidate list. -/
def shuffled (rnd : Nat → Bool) (l : List JSString) : List JSString := (sortRandom rnd l 0).1

/-! ## generateQuotes -/

/-- The key of the default topic, `quotesDatabase.motivation`. -/
def motivation : JSString := js "motivation"

/-- The value `searchTopic` of the timer callback, `topic.toLowerCase().trim()`,
with `lower` for the engine's `toLowerCase`. -/
def searchTopic (lower : JSString → JSString) (topic : JSString) : JSString :=
  trim (lower topic)

/-- The array `matchingKeys`. -/
def matchingKeys (db : QuoteDatabase) (s : JSString) : List JSString :=
  (keys db).filter fun key => includes key s || includes s key

/-- The value of `foundQuotes` when the length test is reached. -/
def foundQuotes (db : QuoteDatabase) (s : JSString) : Value :=
  if truthy (getProperty db s) then getProperty db s
  else
    match matchingKeys db s with
    | k :: _ => getProperty db k
    | [] => if truthy (getProperty db motivation) then getProperty db motivation else .array []

/-- The callback passed to `setTimeout`, run on the captured `topic` and
`quotesDatabase`, updating the state `st` it finds when it fires. -/
def timerCallback (lower : JSString → JSString) (topic : JSString) (db : QuoteDatabase)
    (rnd : Nat → Bool) (st : State) : State × Outcome :=
  match foundQuotes db (searchTopic lower topic) with
  | .undefined => (st, .typeError)
  | .object len =>
      if len = some 0 then ({ st with loading := false }, .noMatch) else (st, .typeError)
  | .array l =>
      if l.length = 0 then ({ st with loading := false }, .noMatch)
      else ({ st with quotes := (shuffled rnd l).take 3, loading := false }, .stored)

/-- The handler `generateQuotes`, with its timer callback run to the end. -/
def generateQuotes (lower : JSString → JSString) (rnd : Nat → Bool) (st : State) :
    State × Outcome :=
  if trim st.topic = [] then (st, .emptyInput)
  else if (keys st.quotesDatabase).length = 0 then (st, .databaseNotReady)
  else timerCallback lower st.topic st.quotesDatabase rnd { st with loading := true }

/-- The quotes a call hands back: the stored sample, or nothing when the call
ended in a signal. -/
def returnedQuotes (r : State × Outcome) : List JSString :=
  match r.2 with
  | .stored => r.1.quotes
  | _ => []

/-! ## loadQuotes -/

/-- How `fetch('/quotes.json')` and `response.json()` end. -/
inductive FetchResult where
  /-- `fetch` rejected. -/
  | rejected
  /-- `response.ok` is false. -/
  | notOk
  /-- `response.json()` rejected. -/
  | unparsable
  /-- The resource parsed to `data`. -/
  | parsed (data : QuoteDatabase)
deriving DecidableEq, Repr

/-- The object literal of the `catch` branch. -/
def fallbackQuotes : QuoteDatabase :=
  [(js "success",
     [js "Success is not final, failure is not fatal: it is the courage to continue that counts. - Winston Churchill",
      js "The way to get started is to quit talking and begin doing. - Walt Disney",
      js "Don't be afraid to give up the good to go for the great. - John D. Rockefeller"]),
   (js "motivation",
     [js "The only way to do great work is to love what you do. - Steve Jobs",
      js "Innovation distinguishes between a leader and a follower. - Steve Jobs",
      js "Your limitation—it's only your imagination. - Unknown"]),
   (js "happiness",
     [js "Happiness is not something ready made. It comes from your own actions. - Dalai Lama",
      js "The purpose of our lives is to be happy. - Dalai Lama",
      js "Life is what happens to you while you're busy making other plans. - John Lennon"]),
   (js "leadership",
     [js "A leader is one who knows the way, goes the way, and shows the way. - John C. Maxwell",
      js "Leadership is not about being in charge. It's about taking care of those in your charge. - Simon Sinek",
      js "The greatest leader is not necessarily the one who does the greatest things. - Ronald Reagan"])]

/-- The message of the `catch` branch. -/
def offlineMessage : JSString := js "Using offline quotes (JSON file not found)"

/-- The error card, `{error && (... {error} ...)}`: rendered, with the message,
when `error` is neither `null` nor the empty string. -/
def errorCard (st : State) : Option JSString :=
  match st.error with
  | some m => if m = [] then none else some m
  | none => none

/-- The effect `loadQuotes`, run to the end of its `finally` block. -/
def loadQuotes (r : FetchResult) (st : State) : State :=
  match r with
  | .parsed data =>
      { st with quotesDatabase := data, error := none, loadingDatabase := false }
  | _ =>
      { st with error := some offlineMessage, quotesDatabase := fallbackQuotes,
                loadingDatabase := false }

/-! ## Quote card -/

/-- The separator between quote text and author. -/
def separator : JSString := js " - "

/-- The text of the `blockquote`, `quote.split(' - ')[0]`; `none` is `undefined`. -/
def blockquote (quote : JSString) : Option JSString := (split quote separator).get? 0

/-- The `cite` element: absent (`none`) unless `quote.includes(' - ')`, and
then holding `quote.split(' - ')[1]`. -/
def cite (quote : JSString) : Option (Option JSString) :=
  if includes quote separator then some ((split quote separator).get? 1) else none

/-! ## Example sessions -/

/-- A random source whose comparator answers alternate. -/
def alternating (n : Nat) : Bool := n % 2 == 0

/-- A small database: `success` sits between a key contained in it and a key
containing it; `empty` holds no quotes. -/
def sampleDatabase : QuoteDatabase :=
  [(js "succ", [js "s1"]),
   (js "successful", [js "f1", js "f2"]),
   (js "success", [js "q1 - A", js "q2 - B", js "q3"]),
   (js "empty", []),
   (js "motivation", [js "m1", js "m2", js "m3", js "m4"])]

/-- A session on `sampleDatabase` showing two earlier quotes. -/
def sampleState (topic : String) : State :=
  { topic := js topic, quotes := [js "old1", js "old2"], loading := false,
    quotesDatabase := sampleDatabase, loadingDatabase := false, error := none }

/-- A database in which a key contained in the input `abc` comes before the
only key containing it. -/
def tieDatabase : QuoteDatabase :=
  [(js "b", [js "x"]), (js "abcd", [js "y"])]

/-- A session on `tieDatabase` with the input `abc`. -/
def tieState : State :=
  { topic := js "abc", quotes := [], loading := false, quotesDatabase := tieDatabase,
    loadingDatabase := false, error := none }

/-- A database with a key contained in the input `constructor`. -/
def builderDatabase : QuoteDatabase :=
  [(js "construct", [js "Build it - A"]), (js "motivation", [js "m1", js "m2"])]

/-- A session on `builderDatabase` with the input `constructor`. -/
def builderState : State :=
  { topic := js "constructor", quotes := [js "old1"], loading := false,
    quotesDatabase := builderDatabase, loadingDatabase := false, error := none }

/-- A database whose only key contained in the input `constructor` holds no
quotes, while `motivation` holds one. -/
def hollowDatabase : QuoteDatabase :=
  [(js "construct", []), (js "motivation", [js "m1"])]

/-- A session on `hollowDatabase` with the input `constructor`. -/
def hollowState : State :=
  { topic := js "constructor", quotes := [js "old1"], loading := false,
    quotesDatabase := hollowDatabase, loadingDatabase := false, error := none }

/-- The database of the default-topic scenario: keys `success` and `motivation`. -/
def scenarioDatabase : QuoteDatabase :=
  [(js "success", [js "s1", js "s2", js "s3"]), (js "motivation", [js "m1", js "m2"])]

/-- A session on `scenarioDatabase` with the input `__proto__`. -/
def protoState : State :=
  { topic := js "__proto__", quotes := [js "old1"], loading := false,
    quotesDatabase := scenarioDatabase, loadingDatabase := false, error := none }

/-- A session on the fallback data, as `loadQuotes` leaves it after a failed
fetch, with the input ` Constructor `. -/
def offlineState : State :=
  { loadQuotes .rejected initialState with topic := js " Constructor " }

/-! ## Strings: trimming and lower-casing -/

theorem isWhiteSpace_lowerUnit (c : Nat) : isWhiteSpace (lowerUnit c) = isWhiteSpace c := by
  unfold lowerUnit
  split
  · next h =>
    have h1 : isWhiteSpace (c + 32) = false := by simp [isWhiteSpace]; omega
    have h2 : isWhiteSpace c = false := by simp [isWhiteSpace]; omega
    rw [h1, h2]
  · rfl

theorem isWhiteSpace_comp_lowerUnit : isWhiteSpace ∘ lowerUnit = isWhiteSpace := by
  funext c
  exact isWhiteSpace_lowerUnit c

theorem trimStart_asciiLowerCase (s : JSString) :
    trimStart (asciiLowerCase s) = asciiLowerCase (trimStart s) := by
  simp only [trimStart, asciiLowerCase, List.dropWhile_map, isWhiteSpace_comp_lowerUnit]

theorem trimEnd_asciiLowerCase (s : JSString) :
    trimEnd (asciiLowerCase s) = asciiLowerCase (trimEnd s) := by
  simp only [trimEnd, asciiLowerCase, ← List.map_reverse, List.dropWhile_map,
    isWhiteSpace_comp_lowerUnit]

/-- White space is caseless: on Basic Latin strings lower-casing and trimming
commute, in whichever order they are applied. -/
theorem trim_asciiLowerCase (s : JSString) :
    trim (asciiLowerCase s) = asciiLowerCase (trim s) := by
  simp only [trim, trimStart_asciiLowerCase, trimEnd_asciiLowerCase]

/-! ## The shuffle is a permutation -/

theorem insertRandom_perm (rnd : Nat → Bool) (x : JSString) (l : List JSString) (n : Nat) :
    (insertRandom rnd x l n).1.Perm (x :: l) := by
  induction l generalizing n with
  | nil => exact List.Perm.refl _
  | cons y ys ih =>
    unfold insertRandom
    split
    · exact ((ih (n + 1)).cons y).trans (List.Perm.swap x y ys)
    · exact List.Perm.refl _

theorem sortRandom_perm (rnd : Nat → Bool) (l : List JSString) (n : Nat) :
    (sortRandom rnd l n).1.Perm l := by
  induction l generalizing n with
  | nil => exact List.Perm.refl _
  | cons x xs ih =>
    unfold sortRandom
    exact (insertRandom_perm rnd x _ _).trans ((ih n).cons x)

theorem shuffled_perm (rnd : Nat → Bool) (l : List JSString) : (shuffled rnd l).Perm l :=
  sortRandom_perm rnd l 0

/-! ## Property reads and resolution -/

theorem getProperty_own {db : QuoteDatabase} {s : JSString} {qs : List JSString}
    (h : ownProperty db s = some qs) : getProperty db s = .array qs := by
  simp [getProperty, h]

theorem ownProperty_of_mem_keys {db : QuoteDatabase} {k : JSString} (h : k ∈ keys db) :
    ∃ qs, ownProperty db k = some qs := by
  induction db with
  | nil => simp [keys] at h
  | cons p rest ih =>
    obtain ⟨k0, v⟩ := p
    by_cases hk : k0 = k
    · exact ⟨v, by simp [ownProperty, hk]⟩
    · have hmem : k ∈ keys rest := by
        simp only [keys, List.map_cons, List.mem_cons] at h
        rcases h with h | h
        · exact absurd h.symm hk
        · exact h
      obtain ⟨qs, hqs⟩ := ih hmem
      exact ⟨qs, by simp [ownProperty, hk, hqs]⟩

theorem mem_keys_of_ownProperty {db : QuoteDatabase} {k : JSString} {qs : List JSString}
    (h : ownProperty db k = some qs) : k ∈ keys db := by
  induction db with
  | nil => simp [ownProperty] at h
  | cons p rest ih =>
    obtain ⟨k0, v⟩ := p
    by_cases hk : k0 = k
    · simp [keys, hk]
    · simp only [ownProperty, hk, if_false] at h
      have := ih h
      simp only [keys, List.map_cons, List.mem_cons]
      exact Or.inr this

theorem keys_ne_nil_of_ownProperty {db : QuoteDatabase} {k : JSString} {qs : List JSString}
    (h : ownProperty db k = some qs) : keys db ≠ [] :=
  List.ne_nil_of_mem (mem_keys_of_ownProperty h)

/-- An own property wins the exact-match test, whatever else the database holds. -/
theorem foundQuotes_own {db : QuoteDatabase} {s : JSString} {qs : List JSString}
    (h : ownProperty db s = some qs) : foundQuotes db s = .array qs := by
  simp [foundQuotes, getProperty_own h, truthy]

/-- A read that is not truthy found neither an own nor an inherited property. -/
theorem not_truthy_getProperty {db : QuoteDatabase} {s : JSString}
    (h : truthy (getProperty db s) = false) :
    ownProperty db s = none ∧ tableLookup objectPrototype s = none := by
  unfold getProperty at h
  cases h1 : ownProperty db s with
  | some qs => simp [h1, truthy] at h
  | none =>
    cases h2 : tableLookup objectPrototype s with
    | some len => simp [h1, h2, truthy] at h
    | none => exact ⟨rfl, rfl⟩

theorem getProperty_undefined {db : QuoteDatabase} {s : JSString}
    (h1 : ownProperty db s = none) (h2 : tableLookup objectPrototype s = none) :
    getProperty db s = .undefined := by
  simp [getProperty, h1, h2]

theorem matchingKeys_head_mem {db : QuoteDatabase} {s k : JSString} {rest : List JSString}
    (h : matchingKeys db s = k :: rest) : k ∈ keys db := by
  have : k ∈ matchingKeys db s := by rw [h]; exact List.mem_cons_self _ _
  exact (List.mem_filter.mp this).1

/-- Without an exact match the first matching key supplies the candidates. -/
theorem foundQuotes_partial {db : QuoteDatabase} {s k : JSString} {rest : List JSString}
    {qs : List JSString} (hexact : truthy (getProperty db s) = false)
    (hm : matchingKeys db s = k :: rest) (hk : ownProperty db k = some qs) :
    foundQuotes db s = .array qs := by
  simp [foundQuotes, hexact, hm, getProperty_own hk]

/-- Without an exact or a partial match the default topic supplies the
candidates, and the empty array stands in when it is absent. -/
theorem foundQuotes_default {db : QuoteDatabase} {s : JSString}
    (hexact : truthy (getProperty db s) = false) (hm : matchingKeys db s = []) :
    foundQuotes db s = .array ((ownProperty db motivation).getD []) := by
  have hproto : tableLookup objectPrototype motivation = none := by decide
  unfold foundQuotes
  rw [if_neg (by rw [hexact]; simp), hm]
  cases h : ownProperty db motivation with
  | some qs => simp [getProperty_own h, truthy]
  | none => simp [getProperty_undefined h hproto, truthy]

/-- A non-empty candidate array comes from an own property of the database. -/
theorem keys_ne_nil_of_foundQuotes {db : QuoteDatabase} {s : JSString} {l : List JSString}
    (h : foundQuotes db s = .array l) (hl : l ≠ []) : keys db ≠ [] := by
  intro hkeys
  have hdb : db = [] := by
    cases db with
    | nil => rfl
    | cons p rest => simp [keys] at hkeys
  subst hdb
  have hproto : tableLookup objectPrototype motivation = none := by decide
  have hmot : getProperty [] motivation = .undefined :=
    getProperty_undefined rfl hproto
  unfold foundQuotes at h
  split at h
  · cases h2 : tableLookup objectPrototype s with
    | some len => simp [getProperty, ownProperty, h2] at h
    | none => simp [getProperty, ownProperty, h2] at h
  · simp [matchingKeys, keys, hmot, truthy] at h
    exact hl h

/-! ## generateQuotes, step by step -/

theorem generateQuotes_blank (lower : JSString → JSString) (rnd : Nat → Bool) (st : State) (h : trim st.topic = []) :
    generateQuotes lower rnd st = (st, .emptyInput) := by
  simp [generateQuotes, h]

theorem generateQuotes_notReady (lower : JSString → JSString) (rnd : Nat → Bool) (st : State) (h : trim st.topic ≠ [])
    (hdb : keys st.quotesDatabase = []) : generateQuotes lower rnd st = (st, .databaseNotReady) := by
  simp [generateQuotes, h, hdb]

theorem generateQuotes_resolves (lower : JSString → JSString) (rnd : Nat → Bool) (st : State) (h : trim st.topic ≠ [])
    (hdb : keys st.quotesDatabase ≠ []) :
    generateQuotes lower rnd st =
      timerCallback lower st.topic st.quotesDatabase rnd { st with loading := true } := by
  simp [generateQuotes, h, hdb]

theorem generateQuotes_empty (lower : JSString → JSString) (rnd : Nat → Bool) (st : State) (h : trim st.topic ≠ [])
    (hdb : keys st.quotesDatabase ≠ [])
    (hf : foundQuotes st.quotesDatabase (searchTopic lower st.topic) = .array []) :
    generateQuotes lower rnd st = ({ st with loading := false }, .noMatch) := by
  rw [generateQuotes_resolves lower rnd st h hdb]
  simp [timerCallback, hf]

theorem generateQuotes_stored (lower : JSString → JSString) (rnd : Nat → Bool) (st : State) (l : List JSString)
    (h : trim st.topic ≠ [])
    (hf : foundQuotes st.quotesDatabase (searchTopic lower st.topic) = .array l) (hl : l ≠ []) :
    generateQuotes lower rnd st =
      ({ st with quotes := (shuffled rnd l).take 3, loading := false }, .stored) := by
  rw [generateQuotes_resolves lower rnd st h (keys_ne_nil_of_foundQuotes hf hl)]
  simp [timerCallback, hf, hl]

theorem timerCallback_outcome (lower : JSString → JSString) (topic : JSString) (db : QuoteDatabase) (rnd : Nat → Bool)
    (st : State) :
    (timerCallback lower topic db rnd st).2 = .noMatch ∨ (timerCallback lower topic db rnd st).2 = .stored ∨
      (timerCallback lower topic db rnd st).2 = .typeError := by
  unfold timerCallback
  split
  · simp
  · split <;> simp
  · split <;> simp

theorem trim_eq_nil_iff (s : JSString) : trim s = [] ↔ ∀ c ∈ s, isWhiteSpace c = true := by
  unfold trim trimEnd trimStart
  rw [List.reverse_eq_nil_iff, List.dropWhile_eq_nil_iff]
  constructor
  · intro h
    rw [← List.dropWhile_eq_nil_iff]
    by_contra hne
    have hhead := List.head_dropWhile_not isWhiteSpace s hne
    have hmem : (List.dropWhile isWhiteSpace s).head hne ∈
        (List.dropWhile isWhiteSpace s).reverse :=
      List.mem_reverse.mpr (List.head_mem hne)
    rw [h _ hmem] at hhead
    exact Bool.noConfusion hhead
  · intro h x hx
    have hnil : List.dropWhile isWhiteSpace s = [] := List.dropWhile_eq_nil_iff.mpr h
    rw [hnil] at hx
    simp at hx

theorem take_three_eq (p : List JSString) : p.take 3 = p.take (min 3 p.length) := by
  by_cases h : 3 ≤ p.length
  · rw [Nat.min_eq_left h]
  · have h1 : p.length ≤ 3 := by omega
    rw [Nat.min_eq_right h1, List.take_of_length_le h1, List.take_of_length_le (le_refl _)]

theorem generateQuotes_typeError (lower : JSString → JSString) (rnd : Nat → Bool) (st : State) (len : Option Nat)
    (h : trim st.topic ≠ []) (hdb : keys st.quotesDatabase ≠ [])
    (hf : foundQuotes st.quotesDatabase (searchTopic lower st.topic) = .object len)
    (hlen : len ≠ some 0) :
    generateQuotes lower rnd st = ({ st with loading := true }, .typeError) := by
  rw [generateQuotes_resolves lower rnd st h hdb]
  simp [timerCallback, hf, hlen]

/-! ## Inherited names -/

theorem mem_of_mem_trim {s : JSString} {c : Nat} (h : c ∈ trim s) : c ∈ s := by
  unfold trim trimEnd trimStart at h
  have h1 := List.mem_reverse.mp h
  have h2 := (List.dropWhile_sublist isWhiteSpace).subset h1
  have h3 := List.mem_reverse.mp h2
  exact (List.dropWhile_sublist isWhiteSpace).subset h3

/-- A Basic Latin normalized form holds no upper-case letter `A`-`Z`. -/
theorem searchTopic_no_upper (topic : JSString) :
    (searchTopic asciiLowerCase topic).any (fun c => decide (65 ≤ c ∧ c ≤ 90)) = false := by
  rw [List.any_eq_false]
  intro c hc
  have hmem := mem_of_mem_trim hc
  simp only [asciiLowerCase, List.mem_map] at hmem
  obtain ⟨d, _, hd⟩ := hmem
  subst hd
  unfold lowerUnit
  split <;> simp <;> omega

theorem inherited_names :
    ∀ p ∈ objectPrototype, p.1 = js "constructor" ∨ p.1 = js "__proto__" ∨
      p.1.any (fun c => decide (65 ≤ c ∧ c ≤ 90)) = true := by
  decide

theorem tableLookup_some {t : List (JSString × Option Nat)} {s : JSString} {v : Option Nat}
    (h : tableLookup t s = some v) : ∃ p ∈ t, p.1 = s := by
  induction t with
  | nil => simp [tableLookup] at h
  | cons p rest ih =>
    obtain ⟨k, w⟩ := p
    by_cases hk : k = s
    · exact ⟨(k, w), List.mem_cons_self _ _, hk⟩
    · simp only [tableLookup, hk, if_false] at h
      obtain ⟨q, hq, hqs⟩ := ih h
      exact ⟨q, List.mem_cons_of_mem _ hq, hqs⟩

/-- The only names of `Object.prototype` a Basic Latin normalized form can be
are `constructor` and `__proto__`: the others hold an upper-case letter. -/
theorem tableLookup_searchTopic (topic : JSString)
    (h1 : searchTopic asciiLowerCase topic ≠ js "constructor")
    (h2 : searchTopic asciiLowerCase topic ≠ js "__proto__") :
    tableLookup objectPrototype (searchTopic asciiLowerCase topic) = none := by
  cases h : tableLookup objectPrototype (searchTopic asciiLowerCase topic) with
  | none => rfl
  | some v =>
    obtain ⟨p, hp, hps⟩ := tableLookup_some h
    rcases inherited_names p hp with h3 | h3 | h3
    · exact absurd (hps ▸ h3) h1
    · exact absurd (hps ▸ h3) h2
    · rw [hps, searchTopic_no_upper] at h3
      exact Bool.noConfusion h3

theorem ownProperty_none_of_not_mem {db : QuoteDatabase} {s : JSString} (h : s ∉ keys db) :
    ownProperty db s = none := by
  cases hs : ownProperty db s with
  | none => rfl
  | some qs => exact absurd (mem_keys_of_ownProperty hs) h

/-- A name that is no key of the database and no property of
`Object.prototype` fails the exact-match test. -/
theorem not_exact_of_not_key (db : QuoteDatabase) (s : JSString) (hkey : s ∉ keys db)
    (hproto : tableLookup objectPrototype s = none) :
    truthy (getProperty db s) = false := by
  rw [getProperty_undefined (ownProperty_none_of_not_mem hkey) hproto]
  rfl

theorem ownProperty_append {pre post : QuoteDatabase} {K : JSString} {qs : List JSString}
    (hK : K ∉ keys pre) : ownProperty (pre ++ (K, qs) :: post) K = some qs := by
  induction pre with
  | nil => simp [ownProperty]
  | cons p rest ih =>
    obtain ⟨k, v⟩ := p
    simp only [keys, List.map_cons, List.mem_cons, not_or] at hK
    have hne : ¬ k = K := fun h => hK.1 h.symm
    simp only [List.cons_append, ownProperty, hne, if_false]
    exact ih hK.2

/-- The head of `matchingKeys` is the first key, in `Object.keys` order, that
contains the input or is contained in it. -/
theorem matchingKeys_first (pre post : QuoteDatabase) (K s : JSString) (qs : List JSString)
    (hpre : ∀ k ∈ keys pre, (includes k s || includes s k) = false)
    (hK : (includes K s || includes s K) = true) :
    ∃ rest, matchingKeys (pre ++ (K, qs) :: post) s = K :: rest := by
  refine ⟨(keys post).filter fun key => includes key s || includes s key, ?_⟩
  unfold matchingKeys
  have hkeys : keys (pre ++ (K, qs) :: post) = keys pre ++ K :: keys post := by
    simp [keys]
  have hnil : (keys pre).filter (fun key => includes key s || includes s key) = [] := by
    rw [List.filter_eq_nil_iff]
    intro k hk
    rw [hpre k hk]
    exact Bool.false_ne_true
  rw [hkeys, List.filter_append, hnil, List.nil_append, List.filter_cons]
  simp only [hK, if_true]

/-- The partial-match rule: without an exact match, the candidates are the
quotes of the first key in iteration order that contains the input or is
contained in it. -/
theorem foundQuotes_first_match {pre post : QuoteDatabase} {K s : JSString}
    {qs : List JSString}
    (hexact : truthy (getProperty (pre ++ (K, qs) :: post) s) = false)
    (hnew : K ∉ keys pre)
    (hpre : ∀ k ∈ keys pre, (includes k s || includes s k) = false)
    (hK : (includes K s || includes s K) = true) :
    foundQuotes (pre ++ (K, qs) :: post) s = .array qs := by
  obtain ⟨rest, hrest⟩ := matchingKeys_first pre post K s qs hpre hK
  exact foundQuotes_partial hexact hrest (ownProperty_append hnew)

theorem mem_of_ownProperty {db : QuoteDatabase} {k : JSString} {qs : List JSString}
    (h : ownProperty db k = some qs) : (k, qs) ∈ db := by
  induction db with
  | nil => simp [ownProperty] at h
  | cons p rest ih =>
    obtain ⟨k0, v⟩ := p
    by_cases hk : k0 = k
    · simp only [ownProperty, hk, if_true, Option.some.injEq] at h
      rw [hk, h]
      exact List.mem_cons_self _ _
    · simp only [ownProperty, hk, if_false] at h
      exact List.mem_cons_of_mem _ (ih h)

/-- The default-topic rule: a normalized form that is no key, no property of
`Object.prototype` and matches no key falls back to the quotes of
`motivation`, or to the empty array when that key is absent. -/
theorem foundQuotes_default_of_not_key (db : QuoteDatabase) (s : JSString)
    (hkey : s ∉ keys db) (hproto : tableLookup objectPrototype s = none)
    (hm : matchingKeys db s = []) :
    foundQuotes db s = .array ((ownProperty db motivation).getD []) :=
  foundQuotes_default (not_exact_of_not_key db s hkey hproto) hm

/-- On the fallback data every normalized form that is no property of
`Object.prototype` resolves to the quotes of one of the four topics,
`motivation` when it matches no key exactly or partially. -/
theorem foundQuotes_fallback (s : JSString) (hproto : tableLookup objectPrototype s = none) :
    ∃ p ∈ fallbackQuotes, foundQuotes fallbackQuotes s = .array p.2 ∧
      (s ∉ keys fallbackQuotes → matchingKeys fallbackQuotes s = [] → p.1 = motivation) := by
  cases hown : ownProperty fallbackQuotes s with
  | some qs =>
    exact ⟨(s, qs), mem_of_ownProperty hown, foundQuotes_own hown,
      fun hk => absurd (mem_keys_of_ownProperty hown) hk⟩
  | none =>
    have hexact : truthy (getProperty fallbackQuotes s) = false := by
      rw [getProperty_undefined hown hproto]
      rfl
    cases hm : matchingKeys fallbackQuotes s with
    | nil =>
      have hmot : ∃ qs, ownProperty fallbackQuotes motivation = some qs :=
        ownProperty_of_mem_keys (by decide)
      obtain ⟨qs, hqs⟩ := hmot
      refine ⟨(motivation, qs), mem_of_ownProperty hqs, ?_, fun _ _ => rfl⟩
      rw [foundQuotes_default hexact hm, hqs]
      rfl
    | cons k rest =>
      obtain ⟨qs, hqs⟩ := ownProperty_of_mem_keys (matchingKeys_head_mem hm)
      exact ⟨(k, qs), mem_of_ownProperty hqs, foundQuotes_partial hexact hm hqs,
        fun _ hnil => List.noConfusion hnil⟩

/-- On the fallback data every non-blank input whose normalized form is no
property of `Object.prototype` stores exactly 3 quotes, a permutation of the
quotes of one topic, whatever the engine's lower-casing. -/
theorem fallback_usable (lower : JSString → JSString) (rnd : Nat → Bool) (st : State)
    (hdb : st.quotesDatabase = fallbackQuotes) (hblank : trim st.topic ≠ [])
    (hproto : tableLookup objectPrototype (searchTopic lower st.topic) = none) :
    (generateQuotes lower rnd st).2 = .stored ∧
    ∃ p ∈ fallbackQuotes, (generateQuotes lower rnd st).1.quotes.Perm p.2 ∧
      (generateQuotes lower rnd st).1.quotes.length = 3 ∧
      (searchTopic lower st.topic ∉ keys fallbackQuotes →
        matchingKeys fallbackQuotes (searchTopic lower st.topic) = [] → p.1 = motivation) := by
  obtain ⟨p, hp, hf, hmot⟩ := foundQuotes_fallback (searchTopic lower st.topic) hproto
  have hlen : p.2.length = 3 := by
    have hall : ∀ q ∈ fallbackQuotes, q.2.length = 3 := by decide
    exact hall p hp
  have hne : p.2 ≠ [] := by
    intro h
    rw [h] at hlen
    exact absurd hlen (by decide)
  rw [← hdb] at hf
  rw [generateQuotes_stored lower rnd st p.2 hblank hf hne]
  have hperm := shuffled_perm rnd p.2
  have htake : (shuffled rnd p.2).take 3 = shuffled rnd p.2 :=
    List.take_of_length_le (by rw [hperm.length_eq, hlen])
  refine ⟨rfl, p, hp, ?_, ?_, hmot⟩
  · show ((shuffled rnd p.2).take 3).Perm p.2
    rw [htake]
    exact hperm
  · show ((shuffled rnd p.2).take 3).length = 3
    rw [htake, hperm.length_eq, hlen]

/-! ## Splitting a quote -/

theorem startsWith_append_self (sep rest : JSString) : startsWith (sep ++ rest) sep = true := by
  induction sep with
  | nil => cases rest <;> rfl
  | cons c cs ih => simp [startsWith, ih]

theorem includes_nil_sub {s sub : JSString} (h : includes s sub = false) :
    startsWith s sub = false := by
  cases s with
  | nil => simpa [includes] using h
  | cons c cs =>
    simp only [includes, Bool.or_eq_false_iff] at h
    exact h.1

/-- A string that does not include `sub` has no suffix starting with it. -/
theorem startsWith_suffix_of_not_includes {t1 t2 sub : JSString}
    (h : includes (t1 ++ t2) sub = false) : startsWith t2 sub = false := by
  induction t1 with
  | nil => exact includes_nil_sub h
  | cons c cs ih =>
    simp only [List.cons_append, includes, Bool.or_eq_false_iff] at h
    exact ih h.2

theorem startsWith_nil (s : JSString) : startsWith s [] = true := by
  cases s <;> rfl

theorem includes_of_startsWith {s sub : JSString} (h : startsWith s sub = true) :
    includes s sub = true := by
  cases s with
  | nil => simpa [includes] using h
  | cons c cs => simp [includes, h]

theorem includes_append_sep (a sep b : JSString) : includes (a ++ (sep ++ b)) sep = true := by
  induction a with
  | nil => exact includes_of_startsWith (startsWith_append_self sep b)
  | cons c cs ih =>
    show includes (c :: (cs ++ (sep ++ b))) sep = true
    rw [includes, ih, Bool.or_true]

/-- Scanning over a stretch in which no separator starts only grows the
current piece. -/
theorem splitGo_scan (sep t rest cur : JSString)
    (h : ∀ t1 t2, t = t1 ++ t2 → t2 ≠ [] → startsWith (t2 ++ rest) sep = false) :
    splitGo sep (t ++ rest) 0 cur = splitGo sep rest 0 (t.reverse ++ cur) := by
  induction t generalizing cur with
  | nil => rfl
  | cons c cs ih =>
    have h0 : startsWith (c :: (cs ++ rest)) sep = false :=
      h [] (c :: cs) rfl (List.cons_ne_nil _ _)
    have hrec : ∀ t1 t2, cs = t1 ++ t2 → t2 ≠ [] → startsWith (t2 ++ rest) sep = false := by
      intro t1 t2 ht hne
      exact h (c :: t1) t2 (by rw [ht]; rfl) hne
    rw [List.cons_append, splitGo, h0]
    simp only [Bool.false_eq_true, if_false]
    rw [ih (c :: cur) hrec]
    simp

theorem splitGo_skip (sep a rest cur : JSString) :
    splitGo sep (a ++ rest) a.length cur = splitGo sep rest 0 cur := by
  induction a with
  | nil => rfl
  | cons c cs ih =>
    rw [List.cons_append, List.length_cons, splitGo]
    exact ih

/-- A string without the separator is a single piece. -/
theorem splitGo_single (sep s : JSString) (h : includes s sep = false) :
    splitGo sep s 0 [] = [s] := by
  have hscan := splitGo_scan sep s [] [] (by
    intro t1 t2 ht _
    rw [List.append_nil]
    exact startsWith_suffix_of_not_includes (ht ▸ h))
  rw [List.append_nil] at hscan
  rw [hscan]
  simp [splitGo]

theorem separator_eq : separator = [32, 45, 32] := by decide

theorem split_separator (q : JSString) : split q separator = splitGo [32, 45, 32] q 0 [] := by
  rw [separator_eq]
  rfl

/-- No separator starts inside `text` when `text` neither includes it nor
ends in ` -`. -/
theorem no_separator_at_boundary (text author : JSString)
    (htext : includes text [32, 45, 32] = false) (hend : endsWith text [32, 45] = false) :
    ∀ t1 t2, text = t1 ++ t2 → t2 ≠ [] →
      startsWith (t2 ++ ([32, 45, 32] ++ author)) [32, 45, 32] = false := by
  intro t1 t2 ht hne
  have hsuf : startsWith t2 [32, 45, 32] = false :=
    startsWith_suffix_of_not_includes (ht ▸ htext)
  match t2, hne, hsuf, ht with
  | [a], _, _, _ => simp [startsWith]
  | [a, b], _, _, ht =>
    subst ht
    by_cases ha : a = 32
    · by_cases hb : b = 45
      · subst ha hb
        simp [endsWith, startsWith, startsWith_nil] at hend
      · simp [startsWith, hb]
    · simp [startsWith, ha]
  | a :: b :: c :: r, _, hsuf, _ =>
    simp only [List.cons_append, startsWith] at hsuf ⊢
    exact hsuf

/-! ## The claims -/

/-- C1. Exact match: when the input is not blank and its normalized form,
trimmed and then lower-cased, is a key of the database with quote list `qs`,
every returned quote is an element of `qs`, and at most 3 and at most
`qs.length` quotes are returned (exactly `min 3 qs.length`: the first three of
the shuffled `qs` when `qs` is not empty), whatever other keys are contained
in the input or contain it. The code lower-cases first and trims afterwards;
`hnorm` is the fact about the engine's `toLowerCase` that makes the two orders
one: white space is caseless, so lower-casing commutes with trimming. -/
theorem exact_match_returns_key_quotes (lower : JSString → JSString) (rnd : Nat → Bool)
    (st : State) (qs : List JSString)
    (hblank : trim st.topic ≠ [])
    (hnorm : lower (trim st.topic) = trim (lower st.topic))
    (hkey : ownProperty st.quotesDatabase (lower (trim st.topic)) = some qs) :
    (∀ q ∈ returnedQuotes (generateQuotes lower rnd st), q ∈ qs) ∧
    (returnedQuotes (generateQuotes lower rnd st)).length ≤ 3 ∧
    (returnedQuotes (generateQuotes lower rnd st)).length ≤ qs.length ∧
    (returnedQuotes (generateQuotes lower rnd st)).length = min 3 qs.length ∧
    (qs ≠ [] → (generateQuotes lower rnd st).2 = .stored ∧
      returnedQuotes (generateQuotes lower rnd st) = (shuffled rnd qs).take 3) := by
  rw [hnorm] at hkey
  have hf : foundQuotes st.quotesDatabase (searchTopic lower st.topic) = .array qs :=
    foundQuotes_own hkey
  by_cases hqs : qs = []
  · subst hqs
    rw [generateQuotes_empty lower rnd st hblank (keys_ne_nil_of_ownProperty hkey) hf]
    simp [returnedQuotes]
  · rw [generateQuotes_stored lower rnd st qs hblank hf hqs]
    have hlen : (shuffled rnd qs).length = qs.length := (shuffled_perm rnd qs).length_eq
    refine ⟨?_, ?_, ?_, ?_, fun _ => ⟨rfl, rfl⟩⟩
    · intro q hq
      exact (shuffled_perm rnd qs).mem_iff.mp (List.mem_of_mem_take hq)
    · simp [returnedQuotes, List.length_take]
    · simp [returnedQuotes, List.length_take, hlen]
    · simp [returnedQuotes, List.length_take, hlen]

theorem exact_match_returns_key_quotes_witness :
    trim (sampleState "  Success ").topic ≠ [] ∧
    asciiLowerCase (trim (js "  Success ")) = trim (asciiLowerCase (js "  Success ")) ∧
    ownProperty sampleDatabase (asciiLowerCase (trim (js "  Success "))) =
      some [js "q1 - A", js "q2 - B", js "q3"] ∧
    returnedQuotes (generateQuotes asciiLowerCase alternating (sampleState "  Success ")) =
      [js "q1 - A", js "q3", js "q2 - B"] ∧
    (returnedQuotes
      (generateQuotes asciiLowerCase alternating (sampleState "  Success "))).length ≤ 3 :=
  ⟨by decide, by decide, by decide, by decide,
    (exact_match_returns_key_quotes asciiLowerCase alternating (sampleState "  Success ")
      [js "q1 - A", js "q2 - B", js "q3"] (by decide)
      (trim_asciiLowerCase (js "  Success ")).symm (by decide)).2.1⟩

/-- C5. Sampling: for a non-empty candidate list `l` and every random source,
the stored quotes are the first `min 3 l.length` elements of a permutation of
`l`; their number is exactly `min 3 l.length`, no quote occurs among them more
often than in `l`, they are a permutation of `l` when `l` has at most 3
quotes, and the database, with the candidate list it holds, is unchanged. -/
theorem sampling_takes_three (lower : JSString → JSString) (rnd : Nat → Bool) (st : State) (l : List JSString)
    (hblank : trim st.topic ≠ [])
    (hf : foundQuotes st.quotesDatabase (searchTopic lower st.topic) = .array l) (hl : l ≠ []) :
    (generateQuotes lower rnd st).2 = .stored ∧
    (∃ p : List JSString, p.Perm l ∧
      (generateQuotes lower rnd st).1.quotes = p.take (min 3 l.length)) ∧
    (generateQuotes lower rnd st).1.quotes.length = min 3 l.length ∧
    (∀ q, (generateQuotes lower rnd st).1.quotes.count q ≤ l.count q) ∧
    (l.length ≤ 3 → (generateQuotes lower rnd st).1.quotes.Perm l) ∧
    (generateQuotes lower rnd st).1.quotesDatabase = st.quotesDatabase := by
  rw [generateQuotes_stored lower rnd st l hblank hf hl]
  have hperm := shuffled_perm rnd l
  have hlen : (shuffled rnd l).length = l.length := hperm.length_eq
  refine ⟨rfl, ⟨shuffled rnd l, hperm, ?_⟩, ?_, ?_, ?_, rfl⟩
  · show (shuffled rnd l).take 3 = _
    rw [take_three_eq, hlen]
  · show ((shuffled rnd l).take 3).length = _
    rw [List.length_take, hlen]
  · intro q
    show ((shuffled rnd l).take 3).count q ≤ _
    exact le_trans ((List.take_sublist 3 _).count_le q) (le_of_eq (hperm.countP_eq _))
  · intro h3
    show ((shuffled rnd l).take 3).Perm l
    rw [List.take_of_length_le (by omega)]
    exact hperm

theorem sampling_takes_three_witness :
    (generateQuotes asciiLowerCase alternating (sampleState "motivation")).1.quotes =
      [js "m2", js "m1", js "m4"] ∧
    (generateQuotes asciiLowerCase alternating (sampleState "motivation")).1.quotes.length = min 3 4 ∧
    (generateQuotes asciiLowerCase alternating (sampleState "motivation")).1.quotesDatabase =
      sampleDatabase :=
  have h := sampling_takes_three asciiLowerCase alternating (sampleState "motivation")
    [js "m1", js "m2", js "m3", js "m4"] (by decide) (by decide) (by decide)
  ⟨by decide, h.2.2.1, h.2.2.2.2.2⟩

/-- C6. Validation: the call ends in EmptyInput exactly when the input is
empty or holds only white space, whatever the database; in DatabaseNotReady
exactly when the input is not blank and the database has no keys; either
rejection leaves the whole state as it was; in every other case the timer
callback runs, with the loading flag raised. -/
theorem validation_rejects (lower : JSString → JSString) (rnd : Nat → Bool) (st : State) :
    ((generateQuotes lower rnd st).2 = .emptyInput ↔ ∀ c ∈ st.topic, isWhiteSpace c = true) ∧
    ((generateQuotes lower rnd st).2 = .databaseNotReady ↔
      (¬ ∀ c ∈ st.topic, isWhiteSpace c = true) ∧ keys st.quotesDatabase = []) ∧
    ((generateQuotes lower rnd st).2 = .emptyInput ∨ (generateQuotes lower rnd st).2 = .databaseNotReady →
      (generateQuotes lower rnd st).1 = st) ∧
    ((¬ ∀ c ∈ st.topic, isWhiteSpace c = true) → keys st.quotesDatabase ≠ [] →
      generateQuotes lower rnd st =
        timerCallback lower st.topic st.quotesDatabase rnd { st with loading := true }) := by
  rw [← trim_eq_nil_iff]
  by_cases hblank : trim st.topic = []
  · rw [generateQuotes_blank lower rnd st hblank]
    simp [hblank]
  · by_cases hdb : keys st.quotesDatabase = []
    · rw [generateQuotes_notReady lower rnd st hblank hdb]
      simp [hblank, hdb]
    · rw [generateQuotes_resolves lower rnd st hblank hdb]
      have ho := timerCallback_outcome lower st.topic st.quotesDatabase rnd { st with loading := true }
      refine ⟨?_, ?_, ?_, fun _ _ => rfl⟩
      · constructor
        · intro h
          rw [h] at ho
          simp at ho
        · intro h
          exact absurd h hblank
      · constructor
        · intro h
          rw [h] at ho
          simp at ho
        · intro h
          exact absurd h.2 hdb
      · intro h
        rcases h with h | h <;> · rw [h] at ho; simp at ho

theorem validation_rejects_witness :
    generateQuotes asciiLowerCase alternating (sampleState " \t ") = (sampleState " \t ", .emptyInput) ∧
    generateQuotes asciiLowerCase alternating { sampleState "success" with quotesDatabase := [] } =
      ({ sampleState "success" with quotesDatabase := [] }, .databaseNotReady) ∧
    (generateQuotes asciiLowerCase alternating (sampleState "success")).2 = .stored :=
  have h1 := validation_rejects asciiLowerCase alternating (sampleState " \t ")
  have h2 := validation_rejects asciiLowerCase alternating { sampleState "success" with quotesDatabase := [] }
  ⟨Prod.ext (h1.2.2.1 (Or.inl (h1.1.mpr (by decide)))) (h1.1.mpr (by decide)),
   Prod.ext (h2.2.2.1 (Or.inr (h2.2.1.mpr (by decide)))) (h2.2.1.mpr (by decide)),
   by decide⟩

/-- The NoMatch path: for a non-blank input against a database with keys, when the
candidates are empty (the exactly matched key holds no quotes; or the read
`quotesDatabase[searchTopic]` is falsy and the first partially matching key
holds no quotes; or that read is falsy, no key matches, and `motivation` holds
no quotes or is absent), `foundQuotes` is the
empty array, whatever the other keys hold, the call signals NoMatch, and the
displayed quotes, the input text and the database are as before, with the
loading flag false: the state differs from the old one at most in that flag. -/
theorem noMatch_frame (lower : JSString → JSString) (rnd : Nat → Bool) (st : State)
    (hblank : trim st.topic ≠ []) (hdb : keys st.quotesDatabase ≠ [])
    (hempty :
      ownProperty st.quotesDatabase (searchTopic lower st.topic) = some [] ∨
      (truthy (getProperty st.quotesDatabase (searchTopic lower st.topic)) = false ∧
        ∃ k rest, matchingKeys st.quotesDatabase (searchTopic lower st.topic) = k :: rest ∧
          ownProperty st.quotesDatabase k = some []) ∨
      (truthy (getProperty st.quotesDatabase (searchTopic lower st.topic)) = false ∧
        matchingKeys st.quotesDatabase (searchTopic lower st.topic) = [] ∧
        (ownProperty st.quotesDatabase motivation = some [] ∨
          ownProperty st.quotesDatabase motivation = none))) :
    foundQuotes st.quotesDatabase (searchTopic lower st.topic) = .array [] ∧
    (generateQuotes lower rnd st).2 = .noMatch ∧
    (generateQuotes lower rnd st).1.quotes = st.quotes ∧
    (generateQuotes lower rnd st).1.topic = st.topic ∧
    (generateQuotes lower rnd st).1.quotesDatabase = st.quotesDatabase ∧
    (generateQuotes lower rnd st).1.loading = false ∧
    (generateQuotes lower rnd st).1 = { st with loading := false } := by
  have hf : foundQuotes st.quotesDatabase (searchTopic lower st.topic) = .array [] := by
    rcases hempty with h | ⟨hex, k, rest, hm, hk⟩ | ⟨hex, hm, hmot⟩
    · exact foundQuotes_own h
    · exact foundQuotes_partial hex hm hk
    · rw [foundQuotes_default hex hm]
      rcases hmot with h | h <;> simp [h]
  rw [generateQuotes_empty lower rnd st hblank hdb hf]
  exact ⟨hf, rfl, rfl, rfl, rfl, rfl, rfl⟩

/-- C9. Load outcome: when the fetch is rejected, the response is not ok or
cannot be parsed, the database becomes the fallback mapping, written out
below, and the message `Using offline quotes (JSON file not found)` is set,
which the error card shows; when the resource parses, the database is the
parsed mapping, the message is cleared and no error card is shown; in every
case the database-loading flag ends false and the input, the displayed quotes
and the loading flag are untouched. The keys of the fallback mapping are
exactly success, motivation, happiness, leadership, and each holds exactly 3
quotes. -/
theorem loadQuotes_outcome (r : FetchResult) (st : State) :
    ((∀ data, r ≠ .parsed data) →
      (loadQuotes r st).quotesDatabase =
        [(js "success",
           [js "Success is not final, failure is not fatal: it is the courage to continue that counts. - Winston Churchill",
            js "The way to get started is to quit talking and begin doing. - Walt Disney",
            js "Don't be afraid to give up the good to go for the great. - John D. Rockefeller"]),
         (js "motivation",
           [js "The only way to do great work is to love what you do. - Steve Jobs",
            js "Innovation distinguishes between a leader and a follower. - Steve Jobs",
            js "Your limitation—it's only your imagination. - Unknown"]),
         (js "happiness",
           [js "Happiness is not something ready made. It comes from your own actions. - Dalai Lama",
            js "The purpose of our lives is to be happy. - Dalai Lama",
            js "Life is what happens to you while you're busy making other plans. - John Lennon"]),
         (js "leadership",
           [js "A leader is one who knows the way, goes the way, and shows the way. - John C. Maxwell",
            js "Leadership is not about being in charge. It's about taking care of those in your charge. - Simon Sinek",
            js "The greatest leader is not necessarily the one who does the greatest things. - Ronald Reagan"])] ∧
      (loadQuotes r st).quotesDatabase = fallbackQuotes ∧
      (loadQuotes r st).error = some (js "Using offline quotes (JSON file not found)") ∧
      errorCard (loadQuotes r st) = some (js "Using offline quotes (JSON file not found)")) ∧
    (∀ data, r = .parsed data →
      (loadQuotes r st).quotesDatabase = data ∧ (loadQuotes r st).error = none ∧
      errorCard (loadQuotes r st) = none) ∧
    (loadQuotes r st).loadingDatabase = false ∧
    (loadQuotes r st).topic = st.topic ∧
    (loadQuotes r st).quotes = st.quotes ∧
    (loadQuotes r st).loading = st.loading ∧
    keys fallbackQuotes = [js "success", js "motivation", js "happiness", js "leadership"] ∧
    (keys fallbackQuotes).Nodup ∧
    4 ≤ (keys fallbackQuotes).length ∧
    (∀ k ∈ keys fallbackQuotes, ∃ qs, ownProperty fallbackQuotes k = some qs ∧ qs.length = 3) ∧
    (∀ p ∈ fallbackQuotes, ∀ q ∈ p.2, q ≠ []) := by
  have hcard : ∀ s : State, s.error = some offlineMessage →
      errorCard s = some (js "Using offline quotes (JSON file not found)") := by
    intro s hs
    unfold errorCard
    rw [hs]
    decide
  refine ⟨?_, ?_, ?_, ?_, ?_, ?_, by decide, by decide, by decide, by decide, by decide⟩
  · intro h
    cases r with
    | parsed data => exact absurd rfl (h data)
    | rejected => exact ⟨rfl, rfl, rfl, hcard _ rfl⟩
    | notOk => exact ⟨rfl, rfl, rfl, hcard _ rfl⟩
    | unparsable => exact ⟨rfl, rfl, rfl, hcard _ rfl⟩
  · intro data h
    subst h
    exact ⟨rfl, rfl, rfl⟩
  all_goals cases r <;> rfl

/-- C2, as stated, fails: in `tieDatabase` the input `abc` is not blank, is
no key and is contained in exactly one key, `abcd`, whose list is `[y]`; yet
the key `b`, contained in the input, comes first, and the call returns `x`,
a quote of `b`. -/
theorem unique_substring_counterexample :
    trim tieState.topic ≠ [] ∧
    searchTopic asciiLowerCase tieState.topic ∉ keys tieState.quotesDatabase ∧
    (keys tieState.quotesDatabase).filter (fun k => includes k (searchTopic asciiLowerCase tieState.topic)) =
      [js "abcd"] ∧
    ownProperty tieState.quotesDatabase (js "abcd") = some [js "y"] ∧
    (∀ rnd, returnedQuotes (generateQuotes asciiLowerCase rnd tieState) = [js "x"]) ∧
    (¬ ∀ rnd, ∀ q ∈ returnedQuotes (generateQuotes asciiLowerCase rnd tieState),
      q ∈ [js "y"]) ∧
    ∀ lower : JSString → JSString, lower (js "abc") = js "abc" →
      ∀ rnd, returnedQuotes (generateQuotes lower rnd tieState) = [js "x"] := by
  have hgen : ∀ lower : JSString → JSString, lower (js "abc") = js "abc" →
      ∀ rnd, returnedQuotes (generateQuotes lower rnd tieState) = [js "x"] := by
    intro lower hl rnd
    have hs : searchTopic lower tieState.topic = trim (js "abc") := congrArg trim hl
    have hf : foundQuotes tieState.quotesDatabase (searchTopic lower tieState.topic) =
        .array [js "x"] := by
      rw [hs]
      decide
    rw [generateQuotes_stored lower rnd tieState [js "x"] (by decide) hf (by decide)]
    rfl
  have hret := hgen asciiLowerCase (by decide)
  refine ⟨by decide, by decide, by decide, by decide, hret, ?_, hgen⟩
  intro h
  have hx := h alternating (js "x") (by rw [hret]; exact List.mem_singleton.mpr rfl)
  revert hx
  decide

/-- C2, amended. For a database with distinct keys and a non-blank input whose
normalized form is not a key, is no name of a property inherited from
`Object.prototype` (such as `constructor` or `__proto__`), is contained in
exactly one key `K`, and contains no key that comes before `K` in the
database's iteration order: the candidates are `K`'s quotes, so every returned
quote is one of them, and when `K` has quotes the first three of the shuffled
list are stored. -/
theorem unique_substring_match (lower : JSString → JSString) (rnd : Nat → Bool)
    (st : State) (pre post : QuoteDatabase) (K : JSString) (qs : List JSString)
    (hblank : trim st.topic ≠ [])
    (hdb : st.quotesDatabase = pre ++ (K, qs) :: post)
    (hnodup : (keys st.quotesDatabase).Nodup)
    (hnotkey : searchTopic lower st.topic ∉ keys st.quotesDatabase)
    (hproto : tableLookup objectPrototype (searchTopic lower st.topic) = none)
    (hsub : includes K (searchTopic lower st.topic) = true)
    (huniq : ∀ k ∈ keys st.quotesDatabase, includes k (searchTopic lower st.topic) = true → k = K)
    (hbefore : ∀ k ∈ keys pre, includes (searchTopic lower st.topic) k = false) :
    foundQuotes st.quotesDatabase (searchTopic lower st.topic) = .array qs ∧
    (∀ q ∈ returnedQuotes (generateQuotes lower rnd st), q ∈ qs) ∧
    (qs ≠ [] → (generateQuotes lower rnd st).2 = .stored ∧
      returnedQuotes (generateQuotes lower rnd st) = (shuffled rnd qs).take 3) := by
  have hkeys : keys st.quotesDatabase = keys pre ++ K :: keys post := by
    rw [hdb]; simp [keys]
  have hnew : K ∉ keys pre := by
    rw [hkeys] at hnodup
    intro hmem
    exact (List.nodup_append.mp hnodup).2.2 hmem (List.mem_cons_self _ _)
  have hexact := not_exact_of_not_key st.quotesDatabase (searchTopic lower st.topic) hnotkey hproto
  have hpre : ∀ k ∈ keys pre,
      (includes k (searchTopic lower st.topic) || includes (searchTopic lower st.topic) k) = false := by
    intro k hk
    have hkmem : k ∈ keys st.quotesDatabase := by
      rw [hkeys]; exact List.mem_append_left _ hk
    have hne : k ≠ K := fun h => hnew (h ▸ hk)
    have h1 : includes k (searchTopic lower st.topic) = false := by
      cases hc : includes k (searchTopic lower st.topic) with
      | false => rfl
      | true => exact absurd (huniq k hkmem hc) hne
    rw [h1, hbefore k hk]
    rfl
  have hf : foundQuotes st.quotesDatabase (searchTopic lower st.topic) = .array qs := by
    rw [hdb] at hexact ⊢
    exact foundQuotes_first_match hexact hnew hpre (by rw [hsub]; rfl)
  refine ⟨hf, ?_, ?_⟩
  · by_cases hqs : qs = []
    · subst hqs
      rw [generateQuotes_empty lower rnd st hblank (by rw [hkeys]; simp) hf]
      simp [returnedQuotes]
    · rw [generateQuotes_stored lower rnd st qs hblank hf hqs]
      intro q hq
      exact (shuffled_perm rnd qs).mem_iff.mp (List.mem_of_mem_take hq)
  · intro hqs
    rw [generateQuotes_stored lower rnd st qs hblank hf hqs]
    exact ⟨rfl, rfl⟩

theorem unique_substring_match_witness :
    includes (js "successful") (searchTopic asciiLowerCase (js " Essf ")) = true ∧
    foundQuotes sampleDatabase (searchTopic asciiLowerCase (js " Essf ")) = .array [js "f1", js "f2"] ∧
    returnedQuotes (generateQuotes asciiLowerCase alternating (sampleState " Essf ")) =
      (shuffled alternating [js "f1", js "f2"]).take 3 :=
  have h := unique_substring_match asciiLowerCase alternating (sampleState " Essf ")
    [(js "succ", [js "s1"])]
    [(js "success", [js "q1 - A", js "q2 - B", js "q3"]), (js "empty", []),
      (js "motivation", [js "m1", js "m2", js "m3", js "m4"])]
    (js "successful") [js "f1", js "f2"]
    (by decide) (by decide) (by decide) (by decide) (by decide) (by decide) (by decide)
    (by decide)
  ⟨by decide, h.1, (h.2.2 (by decide)).2⟩

/-- C10, as stated, fails: neither the text `a -` nor the author `b` includes
the separator, yet the card of `a - - b` shows the text `a` and the
attribution `- b`. -/
theorem quote_card_counterexample :
    includes (js "a -") separator = false ∧ includes (js "b") separator = false ∧
    blockquote (js "a -" ++ separator ++ js "b") = some (js "a") ∧
    blockquote (js "a -" ++ separator ++ js "b") ≠ some (js "a -") ∧
    cite (js "a -" ++ separator ++ js "b") = some (some (js "- b")) ∧
    cite (js "a -" ++ separator ++ js "b") ≠ some (some (js "b")) := by
  decide

/-- C10, amended. For every text that neither includes the separator nor ends
in ` -`, and every author that does not include the separator, the card of
`text ++ " - " ++ author` shows the text `text` and the attribution `author`;
the card of a quote that does not include the separator shows the whole quote
and no attribution; an attribution is shown exactly when the quote includes
the separator. -/
theorem quote_card_parsing (text author quote : JSString) :
    (includes text separator = false → endsWith text (js " -") = false →
      includes author separator = false →
      blockquote (text ++ separator ++ author) = some text ∧
      cite (text ++ separator ++ author) = some (some author)) ∧
    (includes quote separator = false → blockquote quote = some quote ∧ cite quote = none) ∧
    ((cite quote).isSome = true ↔ includes quote separator = true) := by
  refine ⟨?_, ?_, ?_⟩
  · intro htext hend hauthor
    have hinc : includes (text ++ separator ++ author) separator = true := by
      rw [List.append_assoc]
      exact includes_append_sep text separator author
    have hend2 : endsWith text [32, 45] = false := hend
    rw [separator_eq] at htext hauthor
    have hsplit : split (text ++ separator ++ author) separator = [text, author] := by
      rw [split_separator, separator_eq, List.append_assoc,
        splitGo_scan _ _ _ _ (no_separator_at_boundary text author htext hend2)]
      have hmatch : startsWith (32 :: ([45, 32] ++ author)) [32, 45, 32] = true :=
        startsWith_append_self [32, 45, 32] author
      show splitGo [32, 45, 32] (32 :: ([45, 32] ++ author)) 0 (text.reverse ++ []) = _
      rw [splitGo, hmatch]
      simp only [if_true]
      have hskip := splitGo_skip [32, 45, 32] [45, 32] author []
      rw [show ([32, 45, 32] : JSString).length - 1 = ([45, 32] : JSString).length from rfl,
        hskip, splitGo_single _ _ hauthor]
      simp
    unfold blockquote cite
    rw [hsplit, if_pos hinc]
    exact ⟨rfl, rfl⟩
  · intro hq
    have hq2 := hq
    rw [separator_eq] at hq2
    have hsplit : split quote separator = [quote] := by
      rw [split_separator, splitGo_single _ _ hq2]
    simp [blockquote, cite, hsplit, hq]
  · unfold cite
    split <;> simp_all

theorem quote_card_parsing_witness :
    blockquote (js "Stay hungry" ++ separator ++ js "Steve Jobs") = some (js "Stay hungry") ∧
    cite (js "Stay hungry" ++ separator ++ js "Steve Jobs") = some (some (js "Steve Jobs")) ∧
    blockquote (js "Stay-hungry") = some (js "Stay-hungry") ∧ cite (js "Stay-hungry") = none :=
  have h := quote_card_parsing (js "Stay hungry") (js "Steve Jobs") (js "Stay-hungry")
  have h1 := h.1 (by decide) (by decide) (by decide)
  have h2 := h.2.1 (by decide)
  ⟨h1.1, h1.2, h2.1, h2.2⟩

/-- C3 at the input `constructor`: it is not blank and no key of
`builderDatabase`, whose first (and only) matching key is `construct`; yet the
read `quotesDatabase["constructor"]` yields the inherited function `Object`,
which becomes the candidate in place of `construct`'s quotes, and the timer
callback throws with the loading flag still raised. This is so for every
lower-casing that leaves `constructor` as it is. -/
theorem partial_match_inherited_name :
    trim builderState.topic ≠ [] ∧
    searchTopic asciiLowerCase builderState.topic ∉ keys builderState.quotesDatabase ∧
    matchingKeys builderState.quotesDatabase (searchTopic asciiLowerCase builderState.topic) =
      [js "construct"] ∧
    ownProperty builderState.quotesDatabase (js "construct") = some [js "Build it - A"] ∧
    foundQuotes builderState.quotesDatabase (searchTopic asciiLowerCase builderState.topic) =
      .object (some 1) ∧
    (∀ rnd, generateQuotes asciiLowerCase rnd builderState =
      ({ builderState with loading := true }, .typeError)) ∧
    ∀ lower : JSString → JSString, lower (js "constructor") = js "constructor" →
      ∀ rnd, generateQuotes lower rnd builderState =
        ({ builderState with loading := true }, .typeError) := by
  have hgen : ∀ lower : JSString → JSString, lower (js "constructor") = js "constructor" →
      ∀ rnd, generateQuotes lower rnd builderState =
        ({ builderState with loading := true }, .typeError) := by
    intro lower hl rnd
    have hs : searchTopic lower builderState.topic = trim (js "constructor") :=
      congrArg trim hl
    exact generateQuotes_typeError lower rnd builderState (some 1) (by decide) (by decide)
      (by rw [hs]; decide) (by decide)
  exact ⟨by decide, by decide, by decide, by decide, by decide,
    hgen asciiLowerCase (by decide), hgen⟩

/-- C4 at the input `__proto__`: it is not blank, no key of `scenarioDatabase`
and in no substring relation with `success` or `motivation`, and `motivation`
holds quotes; yet the read `quotesDatabase["__proto__"]` yields
`Object.prototype`, no quote of `motivation` is returned, no NoMatch is
signalled, and the timer callback throws with the loading flag still raised.
This is so for every lower-casing that leaves `__proto__` as it is. -/
theorem default_topic_inherited_name :
    trim protoState.topic ≠ [] ∧
    searchTopic asciiLowerCase protoState.topic ∉ keys protoState.quotesDatabase ∧
    matchingKeys protoState.quotesDatabase (searchTopic asciiLowerCase protoState.topic) = [] ∧
    ownProperty protoState.quotesDatabase motivation = some [js "m1", js "m2"] ∧
    foundQuotes protoState.quotesDatabase (searchTopic asciiLowerCase protoState.topic) =
      .object none ∧
    (∀ rnd, generateQuotes asciiLowerCase rnd protoState =
        ({ protoState with loading := true }, .typeError) ∧
      returnedQuotes (generateQuotes asciiLowerCase rnd protoState) = []) ∧
    ∀ lower : JSString → JSString, lower (js "__proto__") = js "__proto__" →
      ∀ rnd, generateQuotes lower rnd protoState =
          ({ protoState with loading := true }, .typeError) ∧
        returnedQuotes (generateQuotes lower rnd protoState) = [] := by
  have hgen : ∀ lower : JSString → JSString, lower (js "__proto__") = js "__proto__" →
      ∀ rnd, generateQuotes lower rnd protoState =
          ({ protoState with loading := true }, .typeError) ∧
        returnedQuotes (generateQuotes lower rnd protoState) = [] := by
    intro lower hl rnd
    have hs : searchTopic lower protoState.topic = trim (js "__proto__") := congrArg trim hl
    have h := generateQuotes_typeError lower rnd protoState none (by decide) (by decide)
      (by rw [hs]; decide) (by decide)
    rw [h]
    exact ⟨rfl, rfl⟩
  exact ⟨by decide, by decide, by decide, by decide, by decide,
    hgen asciiLowerCase (by decide), hgen⟩

/-- C7 at the input `constructor`: it is not blank, `hollowDatabase` has keys,
the input is no key, and the first (and only) partially matching key,
`construct`, holds no quotes, so the candidates of the claim are empty; yet
the read `quotesDatabase["constructor"]` yields the inherited function
`Object`, no NoMatch is signalled, and the timer callback throws with the
loading flag raised, not false. This is so for every lower-casing that leaves
`constructor` as it is. -/
theorem no_match_inherited_name :
    trim hollowState.topic ≠ [] ∧
    keys hollowState.quotesDatabase ≠ [] ∧
    searchTopic asciiLowerCase hollowState.topic ∉ keys hollowState.quotesDatabase ∧
    matchingKeys hollowState.quotesDatabase (searchTopic asciiLowerCase hollowState.topic) =
      [js "construct"] ∧
    ownProperty hollowState.quotesDatabase (js "construct") = some [] ∧
    foundQuotes hollowState.quotesDatabase (searchTopic asciiLowerCase hollowState.topic) =
      .object (some 1) ∧
    ∀ lower : JSString → JSString, lower (js "constructor") = js "constructor" →
      ∀ rnd, generateQuotes lower rnd hollowState =
          ({ hollowState with loading := true }, .typeError) ∧
        (generateQuotes lower rnd hollowState).2 ≠ .noMatch ∧
        (generateQuotes lower rnd hollowState).1.loading = true := by
  refine ⟨by decide, by decide, by decide, by decide, by decide, by decide, ?_⟩
  intro lower hl rnd
  have hs : searchTopic lower hollowState.topic = trim (js "constructor") := congrArg trim hl
  have h := generateQuotes_typeError lower rnd hollowState (some 1) (by decide) (by decide)
    (by rw [hs]; decide) (by decide)
  rw [h]
  exact ⟨rfl, by decide, rfl⟩

/-- C8 at the input ` Constructor `: on the fallback data the input is not
blank, yet the call stores no quotes: the timer callback throws on the
inherited `constructor`, leaving the loading flag raised. This is so for
every lower-casing that takes ` Constructor ` to ` constructor `. -/
theorem fallback_inherited_name :
    offlineState.quotesDatabase = fallbackQuotes ∧
    trim offlineState.topic ≠ [] ∧
    searchTopic asciiLowerCase offlineState.topic = js "constructor" ∧
    (∀ rnd, generateQuotes asciiLowerCase rnd offlineState =
        ({ offlineState with loading := true }, .typeError) ∧
      (generateQuotes asciiLowerCase rnd offlineState).1.quotes = []) ∧
    ∀ lower : JSString → JSString, lower (js " Constructor ") = js " constructor " →
      ∀ rnd, generateQuotes lower rnd offlineState =
          ({ offlineState with loading := true }, .typeError) ∧
        (generateQuotes lower rnd offlineState).1.quotes = [] := by
  have hgen : ∀ lower : JSString → JSString,
      lower (js " Constructor ") = js " constructor " →
      ∀ rnd, generateQuotes lower rnd offlineState =
          ({ offlineState with loading := true }, .typeError) ∧
        (generateQuotes lower rnd offlineState).1.quotes = [] := by
    intro lower hl rnd
    have hs : searchTopic lower offlineState.topic = trim (js " constructor ") :=
      congrArg trim hl
    have h := generateQuotes_typeError lower rnd offlineState (some 1) (by decide) (by decide)
      (by rw [hs]; decide) (by decide)
    rw [h]
    exact ⟨rfl, rfl⟩
  exact ⟨rfl, by decide, by decide, hgen asciiLowerCase (by decide), hgen⟩

end QuoteGenerator
